import Mathlib

/-
Shallow embedding of the reddit2reels-backend server (src/server.js).

Conventions used throughout this development:
* JavaScript strings are modelled as `String` or `List Char` (`String.toList`);
  JS `.length` counts UTF-16 units while `List Char` counts code points — all
  characters appearing in this code base are BMP, where the two agree.
* JS numbers are modelled as `ℚ` (the program only ever adds, multiplies,
  divides, floors, and compares durations, where binary floating point and
  exact rationals follow the same control paths on the inputs of interest).
* `fs.existsSync` is modelled as an environment oracle `String → Bool`.
* Absent/`undefined` optional string fields are modelled as `Option String`
  or as the empty string where the source only tests truthiness.
-/

/- ===========================  Sentence segmenter  ===========================
   src/server.js line 96:
     const sentences = text.replace(/\n+/g, " ").match(/[^.!?。¡¿]+[.!?。]?/g) || [text];
-/

/-- Sentence-final punctuation of the optional terminator class `[.!?。]`. -/
def tChar (c : Char) : Bool :=
  c == '.' || c == '!' || c == '?' || c == '。'

/-- Characters excluded from a sentence run, the negated class `[^.!?。¡¿]`. -/
def xChar (c : Char) : Bool :=
  tChar c || c == '¡' || c == '¿'

/-- One step of `text.replace(/\n+/g, " ")`: each maximal run of newline
characters is replaced with a single space. `prevNl` records whether the
previous character was a newline (i.e. we are inside a run). -/
def collapseGo (prevNl : Bool) : List Char → List Char
  | [] => []
  | c :: rest =>
    if c == '\n' then
      if prevNl then collapseGo true rest else ' ' :: collapseGo true rest
    else c :: collapseGo false rest

/-- `text.replace(/\n+/g, " ")`. -/
def collapseNewlines (l : List Char) : List Char :=
  collapseGo false l

/-- Global matching of `/[^.!?。¡¿]+[.!?。]?/g`: `acc` is the reversed current
run of non-excluded characters.  A terminator closes the run (and is kept,
greedily, by `[.!?。]?`); an inverted mark (`¡`/`¿`) closes the run without
being kept; characters that cannot start a match are skipped. -/
def sentGo (acc : List Char) : List Char → List (List Char)
  | [] => if acc.isEmpty then [] else [acc.reverse]
  | c :: rest =>
    if tChar c then
      if acc.isEmpty then sentGo [] rest
      else (acc.reverse ++ [c]) :: sentGo [] rest
    else if xChar c then
      if acc.isEmpty then sentGo [] rest
      else acc.reverse :: sentGo [] rest
    else sentGo (c :: acc) rest

/-- All matches of `/[^.!?。¡¿]+[.!?。]?/g` over a character list. -/
def sentSplit (l : List Char) : List (List Char) :=
  sentGo [] l

/-- src/server.js line 96: newline normalization, the global sentence match,
and the `|| [text]` fallback to the whole original text when there is no
match at all.  (Named `segmentText` because `segment` is taken by Mathlib.) -/
def segmentText (text : List Char) : List (List Char) :=
  let ss := sentSplit (collapseNewlines text)
  if ss.isEmpty then [text] else ss

/-- Whitespace for the purpose of "ignoring whitespace normalization" (and of
JS `String.prototype.trim` on the characters this program produces). -/
def isWsChar (c : Char) : Bool :=
  c == ' ' || c == '\n' || c == '\t' || c == '\r'

/-- Drop all whitespace characters (used to compare texts up to whitespace
normalization). -/
def stripWS (l : List Char) : List Char :=
  l.filter (fun c => !isWsChar c)

/-- Concatenation of a list of character lists. -/
def catLists : List (List Char) → List Char
  | [] => []
  | l :: ls => l ++ catLists ls

/-- No two adjacent characters are both sentence-boundary characters
(members of the excluded class). -/
def noAdjX : List Char → Bool
  | [] => true
  | [_] => true
  | a :: b :: rest => (!(xChar a && xChar b)) && noAdjX (b :: rest)

/- ===========================  Caption timeline  ===========================
   src/server.js lines 95-120 (makeSrtFromText): proportional allocation with
   a 1.2 s floor and a clamp at the audio duration.
-/

/-- JS `Math.max` on the (non-NaN) rationals this program manipulates.
Defined by an explicit comparison so that the kernel can evaluate it. -/
def ratMax (a b : ℚ) : ℚ := if a ≤ b then b else a

/-- JS `Math.min` on the (non-NaN) rationals this program manipulates. -/
def ratMin (a b : ℚ) : ℚ := if a ≤ b then a else b

/-- One subtitle cue as assembled by `makeSrtFromText`'s forEach loop. -/
structure Cue where
  index : ℕ
  start : ℚ
  stop : ℚ
  text : List Char
deriving DecidableEq, Repr

/-- src/server.js line 97: `sentences.reduce((a, s) => a + s.length, 0) || 1`. -/
def totalCharsOf (ss : List (List Char)) : ℚ :=
  let t : ℕ := (ss.map List.length).sum
  if t = 0 then 1 else (t : ℚ)

/-- src/server.js lines 110-117: the forEach body.  `D` is `audioDurationSec`,
`tc` the precomputed character total, `cursor`/`idx` the running state.
For each sentence: `portion = s.length / tc`, `dur = max(1.2, D * portion)`,
`start = cursor`, `end = min(D, cursor + dur)`, and the cursor advances to
the cue's end. -/
def buildCuesAux (D tc : ℚ) : List (List Char) → ℚ → ℕ → List Cue
  | [], _, _ => []
  | s :: rest, cursor, idx =>
    let portion : ℚ := (s.length : ℚ) / tc
    let dur : ℚ := ratMax 1.2 (D * portion)
    let stop : ℚ := ratMin D (cursor + dur)
    ⟨idx, cursor, stop, s⟩ :: buildCuesAux D tc rest stop (idx + 1)

/-- The full cue list produced by `makeSrtFromText` for a sentence list and a
total audio duration (cursor starts at 0, indices at 1). -/
def buildCues (ss : List (List Char)) (D : ℚ) : List Cue :=
  buildCuesAux D (totalCharsOf ss) ss 0 1

/- ===========================  SRT serialization  ===========================
   src/server.js lines 101-119: timestamp rendering and cue block layout.
-/

/-- JS `String.prototype.padStart(n, "0")`. -/
def padStartZ (n : ℕ) (s : String) : String :=
  String.mk (List.replicate (n - s.length) '0') ++ s

/-- src/server.js lines 101-108 (`toTimestamp`): `ms = Math.floor(sec * 1000)`
then zero-padded `HH:MM:SS,mmm` fields.  All timestamps this program renders
are at nonnegative seconds, where `Math.floor` agrees with the `ℕ`-valued
`Int.toNat ∘ Int.floor` used here. -/
def toTimestamp (sec : ℚ) : String :=
  let ms : ℕ := (Int.floor (sec * 1000)).toNat
  padStartZ 2 (toString (ms / 3600000)) ++ ":" ++
  padStartZ 2 (toString (ms % 3600000 / 60000)) ++ ":" ++
  padStartZ 2 (toString (ms % 60000 / 1000)) ++ "," ++
  padStartZ 3 (toString (ms % 1000))

/-- JS `String.prototype.trim` restricted to the whitespace characters that
occur in this program's data. -/
def trimChars (l : List Char) : List Char :=
  ((l.dropWhile isWsChar).reverse.dropWhile isWsChar).reverse

/-- src/server.js line 115: one pushed SRT block,
`` `${idx}\n${toTimestamp(start)} --> ${toTimestamp(end)}\n${s.trim()}\n` ``. -/
def renderCueBlock (c : Cue) : String :=
  toString c.index ++ "\n" ++
  toTimestamp c.start ++ " --> " ++ toTimestamp c.stop ++ "\n" ++
  String.mk (trimChars c.text) ++ "\n"

/-- src/server.js lines 95-119 (`makeSrtFromText`): the text content written
to the `.srt` file — the cue blocks joined with `"\n"` (each block already
ends in `"\n"`, so consecutive cues are separated by a blank line). -/
def makeSrtFromText (text : List Char) (D : ℚ) : String :=
  String.intercalate "\n" ((buildCues (segmentText text) D).map renderCueBlock)

/-- `TsOf q s`: `s` is exactly the zero-padded `HH:MM:SS,mmm` rendering of
the time `q` (in seconds) at millisecond precision — two-character hour,
minute and second fields, a three-character millisecond field, and the
fields decode back to `Math.floor(q * 1000)` milliseconds. -/
def TsOf (q : ℚ) (s : String) : Prop :=
  ∃ h m sec ms : ℕ,
    h < 100 ∧ m < 60 ∧ sec < 60 ∧ ms < 1000 ∧
    s = padStartZ 2 (toString h) ++ ":" ++ padStartZ 2 (toString m) ++ ":" ++
        padStartZ 2 (toString sec) ++ "," ++ padStartZ 3 (toString ms) ∧
    (padStartZ 2 (toString h)).length = 2 ∧
    (padStartZ 2 (toString m)).length = 2 ∧
    (padStartZ 2 (toString sec)).length = 2 ∧
    (padStartZ 3 (toString ms)).length = 3 ∧
    3600000 * h + 60000 * m + 1000 * sec + ms = (Int.floor (q * 1000)).toNat

/- ===========================  Title escaping  ===========================
   src/server.js lines 180-186: titleSafe and fontPosix.
-/

/-- JS `String.prototype.replace(/c/g, r)` on character lists: every
occurrence of the single character `c` is replaced by the list `r`. -/
def replChar (c : Char) (r : List Char) : List Char → List Char
  | [] => []
  | a :: rest => (if a = c then r else [a]) ++ replChar c r rest

/-- src/server.js lines 181-184: `titleRaw.replace(/\\/g, "\\\\")
.replace(/:/g, "\\:").replace(/'/g, "\\'")` — backslashes doubled first,
then colons and single quotes backslash-escaped. -/
def escapeTitle (t : List Char) : List Char :=
  replChar '\'' ['\\', '\''] (replChar ':' ['\\', ':'] (replChar '\\' ['\\', '\\'] t))

/-- The per-character effect of the three sequential replaces of
`escapeTitle` (proved equal to it below). -/
def escChar (c : Char) : List Char :=
  if c = '\\' then ['\\', '\\']
  else if c = ':' then ['\\', ':']
  else if c = '\'' then ['\\', '\'']
  else [c]

/-- `escChar` mapped over a whole list. -/
def escAll : List Char → List Char
  | [] => []
  | c :: rest => escChar c ++ escAll rest

/-- src/server.js line 186: `fontFile.replace(/\\/g, "/").replace(/:/g, "\\:")`
— Windows path separators become `/`, then colons are escaped. -/
def fontPosixOf (p : List Char) : List Char :=
  replChar ':' ['\\', ':'] (replChar '\\' ['/'] p)

/-- The per-character effect of `fontPosixOf` (proved equal to it below). -/
def escPathChar (c : Char) : List Char :=
  if c = '\\' then ['/'] else if c = ':' then ['\\', ':'] else [c]

/-- `escPathChar` mapped over a whole list. -/
def escPathAll : List Char → List Char
  | [] => []
  | c :: rest => escPathChar c ++ escPathAll rest

/- ============  Backslash-escape scanning of filter-graph text  ============
   ffmpeg filter-graph lexing at the level the source's escaping targets: a
   backslash makes the following character literal; an unescaped separator
   (`:` between filter options, `,` between chain filters) splits.
-/

/-- `cleanB sep l` holds when scanning `l` with backslash escapes meets no
unescaped occurrence of `sep` or of a bare (non-escaping) backslash: every
`sep` and every backslash in `l` is part of an escape pair. -/
def cleanB (sep : Char) : List Char → Bool
  | [] => true
  | c :: rest =>
    if c = '\\' then
      match rest with
      | [] => false
      | _ :: rest2 => cleanB sep rest2
    else (c != sep) && cleanB sep rest

/-- Escape-aware splitter: accumulates the current field (reversed) in `acc`,
treats `\x` as the two literal characters `\x`, and splits at each unescaped
occurrence of `sep`. -/
def splitGo (sep : Char) (acc : List Char) : List Char → List (List Char)
  | [] => [acc.reverse]
  | c :: rest =>
    if c = '\\' then
      match rest with
      | [] => [(c :: acc).reverse]
      | d :: rest2 => splitGo sep (d :: c :: acc) rest2
    else if c = sep then acc.reverse :: splitGo sep [] rest
    else splitGo sep (c :: acc) rest

/-- Split a filter-graph fragment at unescaped occurrences of `sep`. -/
def splitUnesc (sep : Char) (l : List Char) : List (List Char) :=
  splitGo sep [] l

/-- Boolean list-prefix test (`l` starts with `p`). -/
def strPrefixB (p l : List Char) : Bool :=
  l.take p.length == p

/-- Does `needle` occur at the head of `hay`? -/
def subAt : List Char → List Char → Bool
  | [], _ => true
  | _ :: _, [] => false
  | a :: as, b :: bs => a == b && subAt as bs

/-- Does `needle` occur anywhere inside `hay`? -/
def hasSub (needle : List Char) : List Char → Bool
  | [] => needle.isEmpty
  | c :: rest => subAt needle (c :: rest) || hasSub needle rest

/- ===========================  Video rendering  ===========================
   src/server.js lines 135-223: font lookup, drawtext probing, background
   selection, filter-graph assembly and output options (renderVideo).
-/

/-- ASCII lowering, the fragment of `String.prototype.toLowerCase()` relevant
to the `"solid"` comparison. -/
def asciiLower (c : Char) : Char :=
  if 'A' ≤ c ∧ c ≤ 'Z' then Char.ofNat (c.toNat + 32) else c

/-- `String(x).toLowerCase()` on the strings this program compares. -/
def strLower (s : String) : String :=
  String.mk (s.toList.map asciiLower)

/-- src/server.js lines 166-171: the own properties of the `bgMap` object
literal. -/
def bgMapOwn (k : String) : Option String :=
  if k = "gaming" then some "assets/bg/gaming.mp4"
  else if k = "abstract" then some "assets/bg/abstract.mp4"
  else if k = "city" then some "assets/bg/city.mp4"
  else if k = "nature" then some "assets/bg/nature.mp4"
  else none

/-- The property names a plain object literal inherits from
`Object.prototype`: reading `bgMap[k]` for any of these yields a truthy
non-string value (a built-in function, or for `__proto__` the prototype
object itself) rather than `undefined`. -/
def objectProtoKeys : List String :=
  ["constructor", "hasOwnProperty", "isPrototypeOf", "propertyIsEnumerable",
   "toLocaleString", "toString", "valueOf", "__proto__", "__defineGetter__",
   "__defineSetter__", "__lookupGetter__", "__lookupSetter__"]

/-- A JavaScript property read on the `bgMap` object literal: an own asset
path, a truthy non-path member inherited from `Object.prototype`, or
`undefined`. -/
inductive BgLookup where
  | path (p : String)
  | protoMember
  | undefinedVal
deriving DecidableEq, Repr

/-- `bgMap[k]`: the own property if present, else the inherited
`Object.prototype` member, else `undefined`. -/
def bgMapGet (k : String) : BgLookup :=
  match bgMapOwn k with
  | some p => .path p
  | none => if k ∈ objectProtoKeys then .protoMember else .undefinedVal

/-- JavaScript truthiness of a `bgMap` property read: paths are non-empty
strings (truthy), inherited members are functions/objects (truthy),
`undefined` is falsy. -/
def truthyLookup : BgLookup → Bool
  | .path p => p != ""
  | .protoMember => true
  | .undefinedVal => false

/-- src/server.js line 173: `String(bgKey || "").toLowerCase() === "solid"`. -/
def wantsSolid (bgKey : Option String) : Bool :=
  strLower (bgKey.getD "") == "solid"

/-- src/server.js line 174: `bgMap[bgKey] || bgMap["abstract"]`.  An absent
selector reads the property "undefined"; a falsy read falls back to the
default `abstract` asset — but a truthy inherited `Object.prototype` member
short-circuits the fallback. -/
def requestedBg (bgKey : Option String) : BgLookup :=
  let v := bgMapGet (match bgKey with | some k => k | none => "undefined")
  if truthyLookup v then v else bgMapGet "abstract"

/-- `fs.existsSync(requested)` on the possible `requested` values: a real
path is looked up in the environment; a non-path argument (an inherited
`Object.prototype` member) makes `existsSync` swallow the path-validation
error and return false; `undefined` likewise. -/
def existsSyncB (env : String → Bool) : BgLookup → Bool
  | .path p => env p
  | .protoMember => false
  | .undefinedVal => false

/-- src/server.js lines 136-144 (`getFontFile`): the prioritized font
candidate list under the server directory (`path.join` modelled as
`/`-joining). -/
def fontCandidates (dir : String) : List String :=
  [dir ++ "/assets/fonts/Inter-Regular.ttf",
   dir ++ "/assets/fonts/Roboto-Regular.ttf",
   dir ++ "/assets/fonts/Arial.ttf"]

/-- src/server.js lines 136-144: first candidate font that exists on disk
(`env` is the `fs.existsSync` oracle), else `null`. -/
def getFontFile (dir : String) (env : String → Bool) : Option String :=
  (fontCandidates dir).find? env

/-- Outcome of the capability-probing lines 177-178 of src/server.js.
`probeAttempted` records whether `supportsDrawtext()` was invoked at all. -/
structure CapabilityState where
  fontFile : Option String
  hasDraw : Bool
  probeAttempted : Bool
deriving DecidableEq, Repr

/-- src/server.js lines 177-178: `const fontFile = getFontFile();
const hasDraw = fontFile ? await supportsDrawtext() : false;`.
`drawtextOk` is the result the trial render would report if it ran. -/
def capabilities (dir : String) (env : String → Bool) (drawtextOk : Bool) :
    CapabilityState :=
  match getFontFile dir env with
  | some f => ⟨some f, drawtextOk, true⟩
  | none => ⟨none, false, false⟩

/-- The video source chosen by lines 191-195 of src/server.js: the
`requested` value handed to `cmd.input(...)`, or the lavfi solid-color
generated input `color=c=0x0a0f1f:s=1080x1920:r=30`. -/
inductive VSource where
  | named (v : BgLookup)
  | solid
deriving DecidableEq, Repr

/-- src/server.js line 197: the base filter chain. -/
def baseFilter : List Char :=
  "[0:v]scale=1080:1920,setsar=1,format=yuv420p".toList

/-- src/server.js lines 201-202: the drawtext clause with the escaped font
path and escaped title interpolated. -/
def dtClause (fp ts : List Char) : List Char :=
  "drawtext=fontfile=".toList ++ fp ++ ":text='".toList ++ ts ++
  "':fontcolor=white:fontsize=52:x=(w-text_w)/2:y=130:shadowx=2:shadowy=2".toList

/-- src/server.js lines 200-202: the full overlay fragment (drawbox then
drawtext), emitted only when a font is available and drawtext works. -/
def overlayStr (fp ts : List Char) : List Char :=
  ",drawbox=x=80:y=100:w=920:h=160:color=black@0.4:t=filled,".toList ++ dtClause fp ts

/- ====================  JS values for the duration field  ==================== -/

/-- The JSON-ish JavaScript values relevant to the request's `duration`
field, plus `undefined` (`absent`) and the number `NaN`. -/
inductive JVal where
  | absent
  | nullV
  | boolV (b : Bool)
  | num (q : ℚ)
  | nan
  | str (s : String)
deriving DecidableEq, Repr

/-- JavaScript truthiness of a `JVal`. -/
def truthy : JVal → Bool
  | .absent => false
  | .nullV => false
  | .boolV b => b
  | .num q => q != 0
  | .nan => false
  | .str s => s != ""

/-- JavaScript `Number()` on strings, modelled for the strings exercised
here: the empty string converts to 0, unsigned decimal-digit strings to
their value, anything else to `NaN` (`none`). -/
def strToNumber (s : String) : Option ℚ :=
  if s = "" then some 0
  else if s.toList.all Char.isDigit then
    some ((s.toList.foldl (fun a c => 10 * a + (c.toNat - 48)) 0 : ℕ) : ℚ)
  else none

/-- JavaScript `Number()` (`none` is `NaN`). -/
def toNumber : JVal → Option ℚ
  | .absent => none
  | .nullV => some 0
  | .boolV b => some (if b then 1 else 0)
  | .num q => some q
  | .nan => none
  | .str s => strToNumber s

/-- Re-package a `Number()` result as a JS value. -/
def numToJVal : Option ℚ → JVal
  | some q => .num q
  | none => .nan

/-- src/server.js line 256: `const maxDurationSec = duration ?
Number(duration) : undefined;`. -/
def maxDurationSecOf (duration : JVal) : JVal :=
  if truthy duration then numToJVal (toNumber duration) else .absent

/-- JS `String(v)` for the values that can reach the `-t` option (numeric
formatting abstracted by the exact rational's representation). -/
def jsToString : JVal → String
  | .num q => toString q
  | .nan => "NaN"
  | .absent => "undefined"
  | .nullV => "null"
  | .boolV b => if b then "true" else "false"
  | .str s => s

/-- src/server.js lines 210-218 without the trailing spread: the fixed
output options. -/
def baseOutputOpts : List String :=
  ["-map", "[v]", "-map", "1:a", "-shortest", "-r", "30",
   "-pix_fmt", "yuv420p", "-preset", "veryfast", "-crf", "23"]

/-- src/server.js lines 210-218: output options including
`...(maxDurationSec ? ["-t", String(maxDurationSec)] : [])`. -/
def outputOptions (maxDurationSec : JVal) : List String :=
  baseOutputOpts ++
    (if truthy maxDurationSec then ["-t", jsToString maxDurationSec] else [])

/- ===========================  Render plan  =========================== -/

/-- Arguments of `renderVideo` (src/server.js line 165) that influence the
composition; `title` is `""` when absent (the source only tests
truthiness). -/
structure RenderArgs where
  bgKey : Option String
  audioPath : String
  srtPath : String
  title : String
  maxDurationSec : JVal
deriving Repr

/-- The declarative content of the single ffmpeg invocation that
src/server.js lines 188-222 configure. -/
structure RenderPlan where
  videoSource : VSource
  filter : List Char
  outputOpts : List String
deriving DecidableEq, Repr

/-- src/server.js lines 165-218 (`renderVideo`) up to the engine call:
background usability, capability probing, title escaping, filter-graph
assembly and output options.  `dir` is `__dirname`, `env` the
`fs.existsSync` oracle, `drawtextOk` the would-be result of the drawtext
trial render. -/
def renderVideo (dir : String) (env : String → Bool) (drawtextOk : Bool)
    (args : RenderArgs) : RenderPlan :=
  let solid := wantsSolid args.bgKey
  let requested := requestedBg args.bgKey
  let usable := if solid then false
                else truthyLookup requested && existsSyncB env requested
  let caps := capabilities dir env drawtextOk
  let titleRaw := if args.title = "" then "RedditToReels" else args.title
  let titleSafe := escapeTitle titleRaw.toList
  let fontPosix := caps.fontFile.map (fun f => fontPosixOf f.toList)
  let overlay :=
    match fontPosix, caps.hasDraw with
    | some fp, true => overlayStr fp titleSafe
    | _, _ => []
  let filter := baseFilter ++ overlay ++ "[v]".toList
  ⟨if usable then .named requested else .solid, filter,
   outputOptions args.maxDurationSec⟩

/-- The claim C1 property as stated: the filter graph carries a caption
burn-in stage driven from the persisted subtitle file (either the subtitle
path itself or a `subtitles` filter occurs in the graph). -/
def hasCaptionStage (plan : RenderPlan) (srtPath : String) : Prop :=
  hasSub srtPath.toList plan.filter = true ∨
  hasSub "subtitles".toList plan.filter = true

/-- Replace the subtitle path of a `RenderArgs`. -/
def withSrt (a : RenderArgs) (s : String) : RenderArgs :=
  ⟨a.bgKey, a.audioPath, s, a.title, a.maxDurationSec⟩

/- ===========================  Orchestrator  ===========================
   src/server.js lines 229-269: the /api/generate handler's straight-line
   awaits inside one try/catch.
-/

/-- The observable side-effecting stages of one /api/generate run, in
program order: the Polly synthesis call, the ffprobe duration call, the
subtitle file write, the render invocation, and the video file appearing on
success. -/
inductive StageCall where
  | ttsCall
  | durCall
  | srtWrite
  | renderCall
  | videoWrite
deriving DecidableEq, Repr

/-- Terminal state of one /api/generate run: 200, the catch-all 500, or the
400 input validation response. -/
inductive GenResult where
  | completed
  | failed (msg : String)
  | clientError
deriving DecidableEq, Repr

/-- Outcomes of the three awaited fallible collaborators of the handler
(Polly synthesis, ffprobe duration, ffmpeg render). -/
structure Collab where
  ttsOutcome : Except String Unit
  durOutcome : Except String ℚ
  renderOutcome : Except String Unit

/-- src/server.js lines 229-269: the handler body.  The stage calls are
awaited in order inside `try`; the first rejection propagates to `catch`
(res.status(500)) and no later stage runs; `makeSrtFromText` (srtWrite) is
synchronous and cannot fail; a video file exists only if the render
resolved. -/
def generateHandler (bodyText : String) (c : Collab) :
    List StageCall × GenResult :=
  if String.mk (trimChars bodyText.toList) = "" then ([], .clientError)
  else
    match c.ttsOutcome with
    | .error e => ([.ttsCall], .failed e)
    | .ok _ =>
      match c.durOutcome with
      | .error e => ([.ttsCall, .durCall], .failed e)
      | .ok _ =>
        match c.renderOutcome with
        | .error e => ([.ttsCall, .durCall, .srtWrite, .renderCall], .failed e)
        | .ok _ =>
          ([.ttsCall, .durCall, .srtWrite, .renderCall, .videoWrite],
           .completed)

/- ===========================  Input resolution  ===========================
   src/server.js lines 231-241 and 37-53.
-/

/-- src/server.js lines 43-48 (`fetchRedditText`, success path): the title
falls back to "Reddit Story", the script prefers selftext, then the top
comment, then the title, and is trimmed. -/
def fetchResult (postTitle selftext topComment : Option String) :
    String × String :=
  let title := match postTitle with
    | some t => if t = "" then "Reddit Story" else t
    | none => "Reddit Story"
  let st := selftext.getD ""
  let tc := topComment.getD ""
  let script := if st ≠ "" then st else if tc ≠ "" then tc else title
  (title, script.trim)

/-- src/server.js lines 231-239: resolution of the effective title and body
text from the request fields and (in "url" mode) the fetched post.
Absent string fields are modelled as `""` (the source only tests
truthiness). -/
def resolveInputs (mode storyTitle script fetchedTitle fetchedScript :
    String) : String × String :=
  let title := if storyTitle = "" then "RedditToReels" else storyTitle
  let bodyText := script
  if mode = "url" then
    ((if fetchedTitle = "" then title else fetchedTitle),
     (if bodyText = "" then fetchedScript else bodyText))
  else (title, bodyText)

/- ===========================  Helper lemmas: cues  =========================== -/

theorem ratMax_eq_max (a b : ℚ) : ratMax a b = max a b := by
  rw [ratMax, max_def]

theorem ratMin_eq_min (a b : ℚ) : ratMin a b = min a b := by
  rw [ratMin, min_def]

theorem buildCuesAux_length (D tc : ℚ) :
    ∀ (ss : List (List Char)) (cursor : ℚ) (idx : ℕ),
      (buildCuesAux D tc ss cursor idx).length = ss.length := by
  intro ss
  induction ss with
  | nil => intro cursor idx; rfl
  | cons s rest ih => intro cursor idx; simp [buildCuesAux, ih]

theorem buildCuesAux_indices (D tc : ℚ) :
    ∀ (ss : List (List Char)) (cursor : ℚ) (idx : ℕ),
      (buildCuesAux D tc ss cursor idx).map Cue.index =
        List.range' idx ss.length := by
  intro ss
  induction ss with
  | nil => intro cursor idx; rfl
  | cons s rest ih =>
    intro cursor idx
    simp [buildCuesAux, ih, List.range'_succ]

theorem buildCuesAux_chain (D tc : ℚ) :
    ∀ (ss : List (List Char)) (cursor : ℚ) (idx : ℕ),
      List.Chain' (fun a b => a.stop = b.start)
        (buildCuesAux D tc ss cursor idx) ∧
      (∀ x ∈ (buildCuesAux D tc ss cursor idx).head?, x.start = cursor) := by
  intro ss
  induction ss with
  | nil => intro cursor idx; constructor <;> simp [buildCuesAux]
  | cons s rest ih =>
    intro cursor idx
    constructor
    · rw [buildCuesAux]
      apply List.chain'_cons'.mpr
      refine ⟨?_, (ih _ _).1⟩
      intro y hy
      exact ((ih _ _).2 y hy).symm
    · simp [buildCuesAux]

theorem buildCuesAux_bounds (D tc : ℚ) :
    ∀ (ss : List (List Char)) (cursor : ℚ) (idx : ℕ),
      0 ≤ cursor → cursor ≤ D →
      ∀ cue ∈ buildCuesAux D tc ss cursor idx,
        0 ≤ cue.start ∧ cue.start ≤ cue.stop ∧ cue.stop ≤ D := by
  intro ss
  induction ss with
  | nil => intro cursor idx _ _ cue h; simp [buildCuesAux] at h
  | cons s rest ih =>
    intro cursor idx h0 hD cue hcue
    rw [buildCuesAux] at hcue
    have hdur : (1.2 : ℚ) ≤ ratMax 1.2 (D * ((s.length : ℚ) / tc)) := by
      rw [ratMax_eq_max]; exact le_max_left _ _
    have hstop_le : ratMin D (cursor + ratMax 1.2 (D * ((s.length : ℚ) / tc))) ≤ D := by
      rw [ratMin_eq_min]; exact min_le_left _ _
    have hstop_ge : cursor ≤ ratMin D (cursor + ratMax 1.2 (D * ((s.length : ℚ) / tc))) := by
      rw [ratMin_eq_min]
      exact le_min hD (by linarith)
    rcases List.mem_cons.mp hcue with h | h
    · subst h
      exact ⟨h0, hstop_ge, hstop_le⟩
    · exact ih _ _ (le_trans h0 hstop_ge) hstop_le cue h

theorem buildCuesAux_floor (D tc : ℚ) :
    ∀ (ss : List (List Char)) (cursor : ℚ) (idx : ℕ),
      cursor ≤ D →
      ∀ cue ∈ buildCuesAux D tc ss cursor idx,
        ratMin 1.2 (D - cue.start) ≤ cue.stop - cue.start := by
  intro ss
  induction ss with
  | nil => intro cursor idx _ cue h; simp [buildCuesAux] at h
  | cons s rest ih =>
    intro cursor idx hD cue hcue
    rw [buildCuesAux] at hcue
    have hdur : (1.2 : ℚ) ≤ ratMax 1.2 (D * ((s.length : ℚ) / tc)) := by
      rw [ratMax_eq_max]; exact le_max_left _ _
    have hstop_le : ratMin D (cursor + ratMax 1.2 (D * ((s.length : ℚ) / tc))) ≤ D := by
      rw [ratMin_eq_min]; exact min_le_left _ _
    rcases List.mem_cons.mp hcue with h | h
    · subst h
      simp only [ratMin_eq_min, ratMax_eq_max]
      rw [← min_sub_sub_right]
      have h1 : min 1.2 (D - cursor) ≤
          min (cursor + max 1.2 (D * ((s.length : ℚ) / tc)) - cursor) (D - cursor) := by
        apply le_min
        · apply le_trans (min_le_left _ _); simp [le_max_left]
        · exact min_le_right _ _
      calc min 1.2 (D - cursor)
            ≤ min (cursor + max 1.2 (D * ((s.length : ℚ) / tc)) - cursor) (D - cursor) := h1
          _ = min (D - cursor) (cursor + max 1.2 (D * ((s.length : ℚ) / tc)) - cursor) := min_comm _ _
    · exact ih _ _ hstop_le cue h

/- ===========================  Helper lemmas: segmenter  =========================== -/

theorem noAdjX_tail (c : Char) (rest : List Char)
    (h : noAdjX (c :: rest) = true) : noAdjX rest = true := by
  cases rest with
  | nil => rfl
  | cons d rs =>
    rw [show noAdjX (c :: d :: rs) = ((!(xChar c && xChar d)) && noAdjX (d :: rs))
        from rfl, Bool.and_eq_true] at h
    exact h.2

theorem noAdjX_head (c d : Char) (rs : List Char)
    (h : noAdjX (c :: d :: rs) = true) : (xChar c && xChar d) = false := by
  rw [show noAdjX (c :: d :: rs) = ((!(xChar c && xChar d)) && noAdjX (d :: rs))
      from rfl, Bool.and_eq_true] at h
  have h1 := h.1
  cases hcd : (xChar c && xChar d)
  · rfl
  · rw [hcd] at h1
    simpa using h1

theorem sentGo_concat :
    ∀ (l acc : List Char),
      (∀ c ∈ l, c ≠ '¡' ∧ c ≠ '¿') →
      noAdjX l = true →
      (acc = [] → ∀ c ∈ l.head?, xChar c = false) →
      catLists (sentGo acc l) = acc.reverse ++ l := by
  intro l
  induction l with
  | nil =>
    intro acc _ _ _
    by_cases h : acc = []
    · subst h; simp [sentGo, catLists]
    · rw [sentGo]
      simp [List.isEmpty_iff, h, catLists]
  | cons c rest ih =>
    intro acc h1 h2 hside
    by_cases hT : tChar c = true
    · have hx : xChar c = true := by simp [xChar, hT]
      have hacc : acc ≠ [] := by
        intro h
        have := hside h c (by simp)
        rw [this] at hx
        exact Bool.false_ne_true hx
      have hrest : ∀ d ∈ rest.head?, xChar d = false := by
        intro d hd
        cases rest with
        | nil => simp at hd
        | cons r rs =>
          simp at hd
          subst hd
          have h3 := noAdjX_head c r rs h2
          rw [hx] at h3
          simpa using h3
      rw [sentGo]
      simp only [hT, if_true, List.isEmpty_iff, if_neg hacc]
      rw [catLists]
      rw [ih [] (fun d hd => h1 d (List.mem_cons_of_mem c hd))
            (noAdjX_tail c rest h2) (fun _ => hrest)]
      simp
    · by_cases hX : xChar c = true
      · exfalso
        have h14 : c = '¡' ∨ c = '¿' := by
          have hX2 := hX
          simp only [xChar, Bool.or_eq_true, beq_iff_eq] at hX2
          rcases hX2 with (h | h) | h
          · exact absurd h hT
          · exact Or.inl h
          · exact Or.inr h
        have := h1 c (by simp)
        rcases h14 with h | h
        · exact this.1 h
        · exact this.2 h
      · have hT2 : tChar c = false := by simpa using hT
        have hX2 : xChar c = false := by simpa using hX
        rw [sentGo]
        simp only [hT2, hX2, Bool.false_eq_true, if_false]
        rw [ih (c :: acc) (fun d hd => h1 d (List.mem_cons_of_mem c hd))
              (noAdjX_tail c rest h2) (by intro h; exact absurd h (by simp))]
        simp

theorem stripWS_cons (c : Char) (l : List Char) :
    stripWS (c :: l) = if isWsChar c = true then stripWS l else c :: stripWS l := by
  rw [stripWS, List.filter_cons]
  by_cases h : isWsChar c = true <;> simp [h, stripWS]

theorem stripWS_collapseGo : ∀ (l : List Char) (b : Bool),
    stripWS (collapseGo b l) = stripWS l := by
  intro l
  induction l with
  | nil => intro b; rfl
  | cons c rest ih =>
    intro b
    by_cases h : c = '\n'
    · subst h
      rw [collapseGo]
      simp only [beq_self_eq_true, if_true]
      cases b with
      | true =>
        simp only [if_true]
        rw [ih, stripWS_cons]
        simp [isWsChar]
      | false =>
        simp only [Bool.false_eq_true, if_false]
        rw [stripWS_cons, stripWS_cons, ih]
        simp [isWsChar]
    · have h2 : (c == '\n') = false := by simp [h]
      rw [collapseGo]
      simp only [h2, Bool.false_eq_true, if_false]
      rw [stripWS_cons, stripWS_cons, ih]

theorem collapseNewlines_ne_nil (t : List Char) (h : t ≠ []) :
    collapseNewlines t ≠ [] := by
  cases t with
  | nil => exact absurd rfl h
  | cons c rest =>
    rw [collapseNewlines, collapseGo]
    by_cases hc : c = '\n'
    · simp [hc]
    · simp [hc]

theorem segmentText_min_len (t : List Char) : 1 ≤ (segmentText t).length := by
  rw [segmentText]
  by_cases h : (sentSplit (collapseNewlines t)).isEmpty
  · simp [h]
  · simp only [h, if_false, Bool.false_eq_true]
    rw [List.isEmpty_iff] at h
    have := List.length_pos.mpr h
    omega

/- ===========================  Helper lemmas: timestamps  =========================== -/

theorem padStartZ_length (k : ℕ) (s : String) (h : s.length ≤ k) :
    (padStartZ k s).length = k := by
  rw [padStartZ, String.length_append]
  have : (String.mk (List.replicate (k - s.length) '0')).length =
      k - s.length := by
    show (List.replicate (k - s.length) '0').length = k - s.length
    simp
  omega

theorem padStartZ_len_two (n : ℕ) (h : n < 100) :
    (padStartZ 2 (toString n)).length = 2 := by
  apply padStartZ_length
  exact Nat.repr_length n 2 (by norm_num) (by norm_num; omega)

theorem padStartZ_len_three (n : ℕ) (h : n < 1000) :
    (padStartZ 3 (toString n)).length = 3 := by
  apply padStartZ_length
  exact Nat.repr_length n 3 (by norm_num) (by norm_num; omega)

theorem tsOf_toTimestamp (q : ℚ) (h0 : 0 ≤ q) (h1 : q < 360000) :
    TsOf q (toTimestamp q) := by
  have hms : (Int.floor (q * 1000)).toNat < 360000000 := by
    have hq : q * 1000 < 360000000 := by linarith
    have : Int.floor (q * 1000) < (360000000 : ℤ) := by
      rw [Int.floor_lt]
      exact_mod_cast hq
    omega
  refine ⟨(Int.floor (q * 1000)).toNat / 3600000,
          (Int.floor (q * 1000)).toNat % 3600000 / 60000,
          (Int.floor (q * 1000)).toNat % 60000 / 1000,
          (Int.floor (q * 1000)).toNat % 1000,
          by omega, by omega, by omega, by omega, rfl,
          padStartZ_len_two _ (by omega),
          padStartZ_len_two _ (by omega),
          padStartZ_len_two _ (by omega),
          padStartZ_len_three _ (by omega),
          by omega⟩

/- ===========================  Helper lemmas: escaping  =========================== -/

theorem replChar_append (c : Char) (r : List Char) :
    ∀ a b : List Char, replChar c r (a ++ b) = replChar c r a ++ replChar c r b := by
  intro a b
  induction a with
  | nil => rfl
  | cons x xs ih => simp [replChar, ih, List.append_assoc]

theorem escapeTitle_cons (c : Char) (t : List Char) :
    escapeTitle (c :: t) = escChar c ++ escapeTitle t := by
  rw [escapeTitle, escapeTitle]
  rw [show replChar '\\' ['\\', '\\'] (c :: t) =
        (if c = '\\' then ['\\', '\\'] else [c]) ++ replChar '\\' ['\\', '\\'] t
      from rfl]
  rw [replChar_append, replChar_append]
  congr 1
  by_cases h1 : c = '\\'
  · subst h1; rfl
  · by_cases h2 : c = ':'
    · subst h2; rfl
    · by_cases h3 : c = '\''
      · subst h3; rfl
      · simp [replChar, escChar, h1, h2, h3]

theorem escapeTitle_eq_escAll : ∀ t : List Char, escapeTitle t = escAll t := by
  intro t
  induction t with
  | nil => rfl
  | cons c rest ih => rw [escapeTitle_cons, escAll, ih]

theorem fontPosixOf_cons (c : Char) (p : List Char) :
    fontPosixOf (c :: p) = escPathChar c ++ fontPosixOf p := by
  rw [fontPosixOf, fontPosixOf]
  rw [show replChar '\\' ['/'] (c :: p) =
        (if c = '\\' then ['/'] else [c]) ++ replChar '\\' ['/'] p from rfl]
  rw [replChar_append]
  congr 1
  by_cases h1 : c = '\\'
  · subst h1; rfl
  · by_cases h2 : c = ':'
    · subst h2; rfl
    · simp [replChar, escPathChar, h1, h2]

theorem fontPosixOf_eq_escPathAll : ∀ p : List Char, fontPosixOf p = escPathAll p := by
  intro p
  induction p with
  | nil => rfl
  | cons c rest ih => rw [fontPosixOf_cons, escPathAll, ih]

theorem cleanB_nil (sep : Char) : cleanB sep [] = true := rfl

theorem cleanB_single_bs (sep : Char) : cleanB sep ['\\'] = false := rfl

theorem cleanB_pair (sep d : Char) (r : List Char) :
    cleanB sep ('\\' :: d :: r) = cleanB sep r := rfl

theorem cleanB_cons (sep c : Char) (r : List Char) (h : c ≠ '\\') :
    cleanB sep (c :: r) = ((c != sep) && cleanB sep r) := by
  rw [cleanB.eq_def]
  simp [h]

theorem cleanB_append (sep : Char) (a b : List Char) (ha : cleanB sep a = true)
    (hb : cleanB sep b = true) : cleanB sep (a ++ b) = true := by
  induction a using cleanB.induct sep with
  | case1 => simpa using hb
  | case2 => rw [cleanB_single_bs] at ha; exact absurd ha (by simp)
  | case3 d r ih =>
    rw [List.cons_append, List.cons_append, cleanB_pair]
    rw [cleanB_pair] at ha
    exact ih ha
  | case4 c r hC ih =>
    rw [List.cons_append, cleanB_cons sep c _ hC]
    rw [cleanB_cons sep c r hC] at ha
    simp only [Bool.and_eq_true] at ha ⊢
    exact ⟨ha.1, ih ha.2⟩

theorem cleanB_escChar_of (sep c : Char) (hbs : sep ≠ '\\')
    (h : c ≠ sep ∨ c = '\\' ∨ c = ':' ∨ c = '\'') :
    cleanB sep (escChar c) = true := by
  by_cases h1 : c = '\\'
  · subst h1
    show cleanB sep ['\\', '\\'] = true
    rw [cleanB_pair, cleanB_nil]
  · by_cases h2 : c = ':'
    · subst h2
      show cleanB sep ['\\', ':'] = true
      rw [cleanB_pair, cleanB_nil]
    · by_cases h3 : c = '\''
      · subst h3
        show cleanB sep ['\\', '\''] = true
        rw [cleanB_pair, cleanB_nil]
      · have hcs : c ≠ sep := by
          rcases h with h | h | h | h
          · exact h
          · exact absurd h h1
          · exact absurd h h2
          · exact absurd h h3
        rw [escChar, if_neg h1, if_neg h2, if_neg h3, cleanB_cons sep c [] h1]
        simp [hcs, cleanB_nil]

theorem cleanB_escAll (sep : Char) (t : List Char) (hbs : sep ≠ '\\')
    (h : ∀ c ∈ t, c ≠ sep ∨ c = '\\' ∨ c = ':' ∨ c = '\'') :
    cleanB sep (escAll t) = true := by
  induction t with
  | nil => rfl
  | cons c rest ih =>
    rw [escAll]
    exact cleanB_append sep _ _
      (cleanB_escChar_of sep c hbs (h c (by simp)))
      (ih (fun d hd => h d (List.mem_cons_of_mem c hd)))

theorem cleanB_escapeTitle_colon (t : List Char) :
    cleanB ':' (escapeTitle t) = true := by
  rw [escapeTitle_eq_escAll]
  apply cleanB_escAll ':' t (by decide)
  intro c _
  by_cases h : c = ':'
  · exact Or.inr (Or.inr (Or.inl h))
  · exact Or.inl h

theorem cleanB_escapeTitle_quote (t : List Char) :
    cleanB '\'' (escapeTitle t) = true := by
  rw [escapeTitle_eq_escAll]
  apply cleanB_escAll '\'' t (by decide)
  intro c _
  by_cases h : c = '\''
  · exact Or.inr (Or.inr (Or.inr h))
  · exact Or.inl h

theorem cleanB_escapeTitle_comma (t : List Char) (h : ∀ c ∈ t, c ≠ ',') :
    cleanB ',' (escapeTitle t) = true := by
  rw [escapeTitle_eq_escAll]
  apply cleanB_escAll ',' t (by decide)
  intro c hc
  exact Or.inl (h c hc)

theorem cleanB_escPathChar_of (sep c : Char) (hbs : sep ≠ '\\') (hsl : sep ≠ '/')
    (h : c ≠ sep ∨ c = '\\' ∨ c = ':') :
    cleanB sep (escPathChar c) = true := by
  by_cases h1 : c = '\\'
  · subst h1
    show cleanB sep ['/'] = true
    rw [cleanB_cons sep '/' [] (by decide)]
    simp [Ne.symm hsl, cleanB_nil]
  · by_cases h2 : c = ':'
    · subst h2
      show cleanB sep ['\\', ':'] = true
      rw [cleanB_pair, cleanB_nil]
    · have hcs : c ≠ sep := by
        rcases h with h | h | h
        · exact h
        · exact absurd h h1
        · exact absurd h h2
      rw [escPathChar, if_neg h1, if_neg h2, cleanB_cons sep c [] h1]
      simp [hcs, cleanB_nil]

theorem cleanB_fontPosix_colon (p : List Char) :
    cleanB ':' (fontPosixOf p) = true := by
  rw [fontPosixOf_eq_escPathAll]
  induction p with
  | nil => rfl
  | cons c rest ih =>
    rw [escPathAll]
    refine cleanB_append ':' _ _ ?_ ih
    apply cleanB_escPathChar_of ':' c (by decide) (by decide)
    by_cases h : c = ':'
    · exact Or.inr (Or.inr h)
    · exact Or.inl h

theorem cleanB_fontPosix_comma (p : List Char) (h : ∀ c ∈ p, c ≠ ',') :
    cleanB ',' (fontPosixOf p) = true := by
  rw [fontPosixOf_eq_escPathAll]
  induction p with
  | nil => rfl
  | cons c rest ih =>
    rw [escPathAll]
    refine cleanB_append ',' _ _ ?_ (ih (fun d hd => h d (List.mem_cons_of_mem c hd)))
    exact cleanB_escPathChar_of ',' c (by decide) (by decide)
      (Or.inl (h c (by simp)))

theorem splitGo_nil (sep : Char) (acc : List Char) :
    splitGo sep acc [] = [acc.reverse] := rfl

theorem splitGo_pair (sep d : Char) (acc r : List Char) :
    splitGo sep acc ('\\' :: d :: r) = splitGo sep (d :: '\\' :: acc) r := rfl

theorem splitGo_sep (sep : Char) (hbs : sep ≠ '\\') (acc r : List Char) :
    splitGo sep acc (sep :: r) = acc.reverse :: splitGo sep [] r := by
  rw [splitGo.eq_def]
  simp [hbs]

theorem splitGo_other (sep c : Char) (acc r : List Char) (h1 : c ≠ '\\')
    (h2 : c ≠ sep) : splitGo sep acc (c :: r) = splitGo sep (c :: acc) r := by
  rw [splitGo.eq_def]
  simp [h1, h2]

theorem splitGo_clean_append (sep : Char) (l : List Char)
    (hl : cleanB sep l = true) :
    ∀ acc rest, splitGo sep acc (l ++ rest) = splitGo sep (l.reverse ++ acc) rest := by
  induction l using cleanB.induct sep with
  | case1 => intro acc rest; simp
  | case2 => rw [cleanB_single_bs] at hl; exact absurd hl (by simp)
  | case3 d r ih =>
    intro acc rest
    rw [cleanB_pair] at hl
    rw [List.cons_append, List.cons_append, splitGo_pair, ih hl]
    simp [List.append_assoc]
  | case4 c r hC ih =>
    intro acc rest
    rw [cleanB_cons sep c r hC] at hl
    simp only [Bool.and_eq_true, bne_iff_ne] at hl
    rw [List.cons_append, splitGo_other sep c _ _ hC hl.1, ih hl.2]
    simp [List.append_assoc]

theorem splitUnesc_sep_cons (sep : Char) (hbs : sep ≠ '\\') (a b : List Char)
    (ha : cleanB sep a = true) :
    splitUnesc sep (a ++ sep :: b) = a :: splitUnesc sep b := by
  rw [splitUnesc, splitGo_clean_append sep a ha [] (sep :: b),
      splitGo_sep sep hbs]
  simp [splitUnesc]

theorem splitUnesc_clean (sep : Char) (a : List Char) (ha : cleanB sep a = true) :
    splitUnesc sep a = [a] := by
  have h := splitGo_clean_append sep a ha [] []
  rw [List.append_nil] at h
  rw [splitUnesc, h, splitGo_nil]
  simp

/- ===========================  Claim theorems  =========================== -/

/-- C2 counterexample: for the two five-character sentences "Hello","World"
and total duration D = 2 > 0, the second cue spans [1.2, 2] and so has
duration 0.8 < min(1.2, 2); the claim's floor `min(1.2, D)` on every cue's
duration fails because the clamp at D cuts later cues short. -/
theorem c2_counterexample :
    (0 : ℚ) < 2 ∧
    ¬ (∀ cue ∈ buildCues ["Hello".toList, "World".toList] 2,
        ratMin 1.2 2 ≤ cue.stop - cue.start) := by
  constructor
  · norm_num
  · norm_num [buildCues, buildCuesAux, totalCharsOf, ratMax, ratMin]

/-- C2 (amended): for every sentence list and every duration D > 0 the
timeline has exactly N cues, indices 1..N strictly increasing, each cue's
end equals the next cue's start, every cue lies inside [0, D] (so the final
cue's end is at most D), and every cue's duration is at least
min(1.2, D − its start) — the unclamped 1.2-second floor holds only until
the cursor nears D; cues near the end may be truncated, down to zero width. -/
theorem c2_caption_timeline (ss : List (List Char)) (D : ℚ) (hD : 0 < D) :
    (buildCues ss D).length = ss.length ∧
    (buildCues ss D).map Cue.index = List.range' 1 ss.length ∧
    List.Chain' (fun a b => a.stop = b.start) (buildCues ss D) ∧
    (∀ cue ∈ buildCues ss D,
      0 ≤ cue.start ∧ cue.start ≤ cue.stop ∧ cue.stop ≤ D) ∧
    (∀ cue ∈ buildCues ss D,
      ratMin 1.2 (D - cue.start) ≤ cue.stop - cue.start) :=
  ⟨buildCuesAux_length _ _ _ _ _,
   buildCuesAux_indices _ _ _ _ _,
   (buildCuesAux_chain _ _ _ _ _).1,
   buildCuesAux_bounds _ _ _ _ _ le_rfl (le_of_lt hD),
   buildCuesAux_floor _ _ _ _ _ (le_of_lt hD)⟩

/-- C2 witness: the amended timeline properties at the concrete input
(["Hi."], D = 3). -/
theorem c2_caption_timeline_witness :
    (buildCues ["Hi.".toList] 3).length = ["Hi.".toList].length ∧
    (buildCues ["Hi.".toList] 3).map Cue.index =
      List.range' 1 ["Hi.".toList].length ∧
    List.Chain' (fun a b => a.stop = b.start) (buildCues ["Hi.".toList] 3) ∧
    (∀ cue ∈ buildCues ["Hi.".toList] 3,
      0 ≤ cue.start ∧ cue.start ≤ cue.stop ∧ cue.stop ≤ 3) ∧
    (∀ cue ∈ buildCues ["Hi.".toList] 3,
      ratMin 1.2 (3 - cue.start) ≤ cue.stop - cue.start) :=
  c2_caption_timeline ["Hi.".toList] 3 (by norm_num)

/-- C3 counterexample: on the non-empty input "¡Hola!" the segmenter returns
["Hola!"] — the inverted exclamation mark is dropped by the match regex, so
concatenating the sentences does not reconstruct the original content even
after ignoring whitespace. -/
theorem c3_counterexample :
    1 ≤ (segmentText "¡Hola!".toList).length ∧
    stripWS (catLists (segmentText "¡Hola!".toList)) ≠
      stripWS "¡Hola!".toList := by
  decide

/-- C3 (amended): the segmenter always returns at least one sentence, and
for every non-empty input whose newline-normalized form contains no inverted
punctuation (¡, ¿), no two adjacent sentence-boundary characters
(`noAdjX`), and does not begin with one, concatenating the sentences
reconstructs the input up to whitespace normalization. -/
theorem c3_segmenter (t : List Char) (hne : t ≠ [])
    (h1 : ∀ c ∈ collapseNewlines t, c ≠ '¡' ∧ c ≠ '¿')
    (h2 : noAdjX (collapseNewlines t) = true)
    (h3 : ∀ c ∈ (collapseNewlines t).head?, xChar c = false) :
    1 ≤ (segmentText t).length ∧
    stripWS (catLists (segmentText t)) = stripWS t := by
  refine ⟨segmentText_min_len t, ?_⟩
  have hcat : catLists (sentSplit (collapseNewlines t)) = collapseNewlines t := by
    rw [sentSplit]
    exact sentGo_concat _ [] h1 h2 (fun _ => h3)
  have hnn : collapseNewlines t ≠ [] := collapseNewlines_ne_nil t hne
  have hne2 : sentSplit (collapseNewlines t) ≠ [] := by
    intro h
    rw [h] at hcat
    exact hnn hcat.symm
  have hie : (sentSplit (collapseNewlines t)).isEmpty = false := by
    simp [List.isEmpty_iff, hne2]
  rw [segmentText]
  simp only [hie, Bool.false_eq_true, if_false]
  rw [hcat]
  exact stripWS_collapseGo t false

/-- C3 witness: the amended segmenter property at the concrete input
"Hola. Adios.". -/
theorem c3_segmenter_witness :
    1 ≤ (segmentText "Hola. Adios.".toList).length ∧
    stripWS (catLists (segmentText "Hola. Adios.".toList)) =
      stripWS "Hola. Adios.".toList :=
  c3_segmenter "Hola. Adios.".toList (by decide) (by decide) (by decide)
    (by decide)

/-- C4: for every input text and every duration 0 ≤ D < 360000 s, the
generated caption file is the cue blocks joined by a newline — each block a
1-based index line (indices run 1..N), a timing line
`HH:MM:SS,mmm --> HH:MM:SS,mmm` whose fields are zero-padded to width
2/2/2/3 and decode the cue boundary at millisecond precision, the trimmed
cue text, and a trailing newline (hence a blank line between cues). -/
theorem c4_srt_format (text : List Char) (D : ℚ) (h0 : 0 ≤ D)
    (h1 : D < 360000) :
    makeSrtFromText text D =
      String.intercalate "\n"
        ((buildCues (segmentText text) D).map renderCueBlock) ∧
    (buildCues (segmentText text) D).map Cue.index =
      List.range' 1 (segmentText text).length ∧
    ∀ cue ∈ buildCues (segmentText text) D,
      renderCueBlock cue =
        toString cue.index ++ "\n" ++ toTimestamp cue.start ++ " --> " ++
          toTimestamp cue.stop ++ "\n" ++ String.mk (trimChars cue.text) ++
          "\n" ∧
      TsOf cue.start (toTimestamp cue.start) ∧
      TsOf cue.stop (toTimestamp cue.stop) := by
  refine ⟨rfl, buildCuesAux_indices _ _ _ _ _, ?_⟩
  intro cue hcue
  have hb := buildCuesAux_bounds D (totalCharsOf (segmentText text))
    (segmentText text) 0 1 le_rfl h0 cue hcue
  exact ⟨rfl,
    tsOf_toTimestamp _ hb.1 (lt_of_le_of_lt (le_trans hb.2.1 hb.2.2) h1),
    tsOf_toTimestamp _ (le_trans hb.1 hb.2.1) (lt_of_le_of_lt hb.2.2 h1)⟩

/-- C4 witness: the serialization format at the concrete input
("Hello there. This is great!", D = 10). -/
theorem c4_srt_format_witness :
    makeSrtFromText "Hello there. This is great!".toList 10 =
      String.intercalate "\n"
        ((buildCues (segmentText "Hello there. This is great!".toList) 10).map
          renderCueBlock) ∧
    (buildCues (segmentText "Hello there. This is great!".toList) 10).map
        Cue.index =
      List.range' 1 (segmentText "Hello there. This is great!".toList).length ∧
    ∀ cue ∈ buildCues (segmentText "Hello there. This is great!".toList) 10,
      renderCueBlock cue =
        toString cue.index ++ "\n" ++ toTimestamp cue.start ++ " --> " ++
          toTimestamp cue.stop ++ "\n" ++ String.mk (trimChars cue.text) ++
          "\n" ∧
      TsOf cue.start (toTimestamp cue.start) ∧
      TsOf cue.stop (toTimestamp cue.stop) :=
  c4_srt_format "Hello there. This is great!".toList 10 (by norm_num)
    (by norm_num)

/-- C7: if the speech-synthesis call rejects, the handler reaches the failed
terminal response carrying the synthesis error, with the synthesis stage
called exactly once and no duration measurement, no caption write, no render
call and no video file write — no later stage and no retry. -/
theorem c7_synthesis_failure (bodyText : String) (c : Collab) (e : String)
    (hb : ¬ String.mk (trimChars bodyText.toList) = "")
    (he : c.ttsOutcome = Except.error e) :
    generateHandler bodyText c = ([StageCall.ttsCall], GenResult.failed e) ∧
    StageCall.durCall ∉ (generateHandler bodyText c).1 ∧
    StageCall.srtWrite ∉ (generateHandler bodyText c).1 ∧
    StageCall.renderCall ∉ (generateHandler bodyText c).1 ∧
    StageCall.videoWrite ∉ (generateHandler bodyText c).1 ∧
    (generateHandler bodyText c).1.count StageCall.ttsCall = 1 := by
  have h : generateHandler bodyText c = ([.ttsCall], .failed e) := by
    rw [generateHandler, if_neg hb, he]
  rw [h]
  refine ⟨rfl, ?_, ?_, ?_, ?_, ?_⟩ <;> simp

/-- C7 witness: the failure path at a concrete request whose synthesis call
rejects with "boom". -/
theorem c7_synthesis_failure_witness :
    generateHandler "hola" ⟨Except.error "boom", Except.ok 1, Except.ok ()⟩ =
      ([StageCall.ttsCall], GenResult.failed "boom") ∧
    StageCall.durCall ∉
      (generateHandler "hola"
        ⟨Except.error "boom", Except.ok 1, Except.ok ()⟩).1 ∧
    StageCall.srtWrite ∉
      (generateHandler "hola"
        ⟨Except.error "boom", Except.ok 1, Except.ok ()⟩).1 ∧
    StageCall.renderCall ∉
      (generateHandler "hola"
        ⟨Except.error "boom", Except.ok 1, Except.ok ()⟩).1 ∧
    StageCall.videoWrite ∉
      (generateHandler "hola"
        ⟨Except.error "boom", Except.ok 1, Except.ok ()⟩).1 ∧
    (generateHandler "hola"
        ⟨Except.error "boom", Except.ok 1, Except.ok ()⟩).1.count
      StageCall.ttsCall = 1 :=
  c7_synthesis_failure "hola" ⟨Except.error "boom", Except.ok 1, Except.ok ()⟩
    "boom" (by decide) rfl

/-- C8: when none of the candidate font files exists, `getFontFile` returns
none, `hasDraw` is false, and the `supportsDrawtext` trial render is never
attempted. -/
theorem c8_font_gate (dir : String) (env : String → Bool) (d : Bool)
    (h : ∀ p ∈ fontCandidates dir, env p = false) :
    getFontFile dir env = none ∧
    capabilities dir env d = ⟨none, false, false⟩ := by
  have hg : getFontFile dir env = none := by
    rw [getFontFile, List.find?_eq_none]
    intro x hx
    simp [h x hx]
  exact ⟨hg, by rw [capabilities, hg]⟩

/-- C8 witness: the font gate in the environment where no file exists. -/
theorem c8_font_gate_witness :
    getFontFile "/srv" (fun _ => false) = none ∧
    capabilities "/srv" (fun _ => false) true = ⟨none, false, false⟩ :=
  c8_font_gate "/srv" (fun _ => false) true (fun _ _ => rfl)

/-- C9: in "url" mode a non-empty fetched title replaces the caller-supplied
story title, while a non-empty caller-supplied script takes precedence over
the fetched body (the fetched body is used exactly when the supplied script
is empty); moreover the fetched title is never empty. -/
theorem c9_url_mode (mode storyTitle script ft fs : String)
    (hm : mode = "url") :
    (ft ≠ "" → (resolveInputs mode storyTitle script ft fs).1 = ft) ∧
    (script ≠ "" → (resolveInputs mode storyTitle script ft fs).2 = script) ∧
    (script = "" → (resolveInputs mode storyTitle script ft fs).2 = fs) ∧
    (∀ pt st tc, (fetchResult pt st tc).1 ≠ "") := by
  subst hm
  refine ⟨?_, ?_, ?_, ?_⟩
  · intro h; simp [resolveInputs, h]
  · intro h; simp [resolveInputs, h]
  · intro h; simp [resolveInputs, h]
  · intro pt st tc
    rcases pt with _ | t
    · simp [fetchResult]
    · by_cases h : t = "" <;> simp [fetchResult, h]

/-- C9 witness: the resolution rules at concrete requests. -/
theorem c9_url_mode_witness :
    (resolveInputs "url" "caller" "my script" "Fetched" "body").1 =
      "Fetched" ∧
    (resolveInputs "url" "caller" "my script" "Fetched" "body").2 =
      "my script" ∧
    (resolveInputs "url" "caller" "" "Fetched" "body").2 = "body" :=
  ⟨(c9_url_mode "url" "caller" "my script" "Fetched" "body" rfl).1
      (by decide),
   (c9_url_mode "url" "caller" "my script" "Fetched" "body" rfl).2.1
      (by decide),
   (c9_url_mode "url" "caller" "" "Fetched" "body" rfl).2.2.1 rfl⟩

/-- C10 counterexample: the string "0" is truthy, yet the output options
carry no "-t": `Number("0")` is 0, which is falsy at the spread, so the
"-t appended exactly when duration is truthy" claim fails. -/
theorem c10_counterexample :
    truthy (JVal.str "0") = true ∧
    "-t" ∉ outputOptions (maxDurationSecOf (JVal.str "0")) := by
  constructor
  · decide
  · decide

/-- C10 (amended): the "-t" pair is appended exactly when the duration value
is truthy and converts to a nonzero number (not NaN); in particular an
absent, zero or otherwise falsy duration yields the bare fixed options, and
the fixed options never contain "-t". -/
theorem c10_duration_option (duration : JVal) :
    outputOptions (maxDurationSecOf duration) =
      baseOutputOpts ++
        (if truthy duration = true ∧ toNumber duration ≠ none ∧
            toNumber duration ≠ some 0
         then ["-t", jsToString (maxDurationSecOf duration)] else []) ∧
    "-t" ∉ baseOutputOpts := by
  refine ⟨?_, by decide⟩
  cases htr : truthy duration with
  | false =>
    rw [maxDurationSecOf, htr]
    simp [outputOptions, truthy, htr]
  | true =>
    rw [maxDurationSecOf, htr]
    simp only [if_true]
    cases hn : toNumber duration with
    | none => simp [numToJVal, outputOptions, truthy, hn]
    | some q =>
      by_cases hq : q = 0
      · subst hq
        simp [numToJVal, outputOptions, truthy, hn]
      · simp [numToJVal, outputOptions, truthy, hn, hq, htr]

theorem strPrefixB_append_false (p a x : List Char) (hlen : p.length ≤ a.length)
    (h : strPrefixB p a = false) : strPrefixB p (a ++ x) = false := by
  rw [strPrefixB, List.take_append_of_le_length hlen]
  rw [strPrefixB] at h
  exact h

theorem renderVideo_videoSource (dir : String) (env : String → Bool) (d : Bool)
    (args : RenderArgs) :
    (renderVideo dir env d args).videoSource =
      (if (if wantsSolid args.bgKey then false
           else truthyLookup (requestedBg args.bgKey) &&
                existsSyncB env (requestedBg args.bgKey))
       then VSource.named (requestedBg args.bgKey) else VSource.solid) := rfl

theorem renderVideo_filter_no_font (dir : String) (env : String → Bool)
    (d : Bool) (args : RenderArgs) (hf : getFontFile dir env = none) :
    (renderVideo dir env d args).filter = baseFilter ++ "[v]".toList := by
  simp [renderVideo, capabilities, hf]

theorem renderVideo_filter_no_draw (dir : String) (env : String → Bool)
    (args : RenderArgs) (f : String) (hf : getFontFile dir env = some f) :
    (renderVideo dir env false args).filter = baseFilter ++ "[v]".toList := by
  simp [renderVideo, capabilities, hf]

theorem renderVideo_filter_overlay (dir : String) (env : String → Bool)
    (args : RenderArgs) (f : String) (hf : getFontFile dir env = some f) :
    (renderVideo dir env true args).filter =
      baseFilter ++
        overlayStr (fontPosixOf f.toList)
          (escapeTitle
            (if args.title = "" then "RedditToReels" else args.title).toList) ++
        "[v]".toList := by
  simp [renderVideo, capabilities, hf]

/-- C5 counterexample: "constructor" is an unknown selector (not an own key
of the background table), yet even with every asset present on disk the
plan's source is the solid-color fallback, not the default named abstract
asset: the property read `bgMap["constructor"]` hits the truthy inherited
`Object.prototype.constructor`, short-circuits `|| bgMap["abstract"]`, and
`existsSync` rejects the non-path value. -/
theorem c5_counterexample :
    bgMapOwn "constructor" = none ∧
    (renderVideo "/srv" (fun _ => true) true
        ⟨some "constructor", "voice.mp3", "captions.srt", "T",
          JVal.absent⟩).videoSource = VSource.solid ∧
    (renderVideo "/srv" (fun _ => true) true
        ⟨some "constructor", "voice.mp3", "captions.srt", "T",
          JVal.absent⟩).videoSource ≠
      VSource.named (BgLookup.path "assets/bg/abstract.mp4") := by
  decide

/-- C5 (amended): the render plan selects the solid-color generated source
for the "solid" selector regardless of asset presence.  An unknown selector
that is not an `Object.prototype` member name resolves the requested asset
to the default "abstract" path and (when that asset is present and the
selector is not a spelling of "solid") yields the default named background
clip; but an unknown selector that names an inherited `Object.prototype`
member short-circuits the fallback and the plan degrades to the solid-color
source. -/
theorem c5_background_selection :
    (∀ (dir : String) (env : String → Bool) (d : Bool) (args : RenderArgs),
      args.bgKey = some "solid" →
      (renderVideo dir env d args).videoSource = VSource.solid) ∧
    (∀ k : String, bgMapOwn k = none → k ∉ objectProtoKeys →
      requestedBg (some k) = BgLookup.path "assets/bg/abstract.mp4") ∧
    (∀ (dir : String) (env : String → Bool) (d : Bool) (args : RenderArgs)
        (k : String),
      args.bgKey = some k → bgMapOwn k = none → k ∉ objectProtoKeys →
      strLower k ≠ "solid" → env "assets/bg/abstract.mp4" = true →
      (renderVideo dir env d args).videoSource =
        VSource.named (BgLookup.path "assets/bg/abstract.mp4")) ∧
    (∀ (dir : String) (env : String → Bool) (d : Bool) (args : RenderArgs)
        (k : String),
      args.bgKey = some k → k ∈ objectProtoKeys →
      (renderVideo dir env d args).videoSource = VSource.solid) := by
  refine ⟨?_, ?_, ?_, ?_⟩
  · intro dir env d args h
    rw [renderVideo_videoSource, h]
    have hs : wantsSolid (some "solid") = true := by decide
    rw [hs]
    simp
  · intro k hmap hproto
    rw [requestedBg]
    simp [bgMapGet, hmap, hproto, truthyLookup]
    decide
  · intro dir env d args k hk hmap hproto hlow henv
    have hw : wantsSolid (some k) = false := by
      rw [wantsSolid]
      simp only [Option.getD_some]
      exact beq_eq_false_iff_ne.mpr hlow
    have hreq : requestedBg (some k) = BgLookup.path "assets/bg/abstract.mp4" := by
      rw [requestedBg]
      simp [bgMapGet, hmap, hproto, truthyLookup]
      decide
    rw [renderVideo_videoSource, hk, hw, hreq]
    simp [truthyLookup, existsSyncB, henv]
  · intro dir env d args k hk hproto
    have hown : bgMapOwn k = none := by
      have hall : ∀ p ∈ objectProtoKeys, bgMapOwn p = none := by decide
      exact hall k hproto
    have hreq : requestedBg (some k) = BgLookup.protoMember := by
      rw [requestedBg]
      simp [bgMapGet, hown, hproto, truthyLookup]
    rw [renderVideo_videoSource, hk, hreq]
    cases hw : wantsSolid (some k) <;> simp [existsSyncB]

/-- C5 witness: "solid" beats a present asset; the unknown selector "space"
falls back to the present default abstract asset; the inherited-member
selector "toString" degrades to the solid-color source. -/
theorem c5_background_selection_witness :
    (renderVideo "/srv" (fun _ => true) true
        ⟨some "solid", "voice.mp3", "captions.srt", "T", JVal.absent⟩).videoSource =
      VSource.solid ∧
    (renderVideo "/srv" (fun _ => true) true
        ⟨some "space", "voice.mp3", "captions.srt", "T", JVal.absent⟩).videoSource =
      VSource.named (BgLookup.path "assets/bg/abstract.mp4") ∧
    (renderVideo "/srv" (fun _ => true) true
        ⟨some "toString", "voice.mp3", "captions.srt", "T", JVal.absent⟩).videoSource =
      VSource.solid :=
  ⟨c5_background_selection.1 "/srv" (fun _ => true) true
      ⟨some "solid", "voice.mp3", "captions.srt", "T", JVal.absent⟩ rfl,
   c5_background_selection.2.2.1 "/srv" (fun _ => true) true
      ⟨some "space", "voice.mp3", "captions.srt", "T", JVal.absent⟩ "space"
      rfl (by decide) (by decide) (by decide) rfl,
   c5_background_selection.2.2.2 "/srv" (fun _ => true) true
      ⟨some "toString", "voice.mp3", "captions.srt", "T", JVal.absent⟩
      "toString" rfl (by decide)⟩

/-- C6: for every title containing a colon, backslash or single quote (and
any escaped font path), the escaped title contains only escaped colons,
quotes and backslashes (`cleanB` under backslash-escape scanning), and the
drawtext clause splits at unescaped colons into exactly its eight intended
`key=value` options, the whole escaped title staying inside the single
`text='…'` option. -/
theorem c6_title_escaping (title fp : List Char)
    (hsp : ∃ c ∈ title, c = ':' ∨ c = '\\' ∨ c = '\'')
    (hfp : cleanB ':' fp = true) :
    cleanB ':' (escapeTitle title) = true ∧
    cleanB '\'' (escapeTitle title) = true ∧
    splitUnesc ':' (dtClause fp (escapeTitle title)) =
      ["drawtext=fontfile=".toList ++ fp,
       "text='".toList ++ escapeTitle title ++ ['\''],
       "fontcolor=white".toList, "fontsize=52".toList,
       "x=(w-text_w)/2".toList, "y=130".toList,
       "shadowx=2".toList, "shadowy=2".toList] := by
  refine ⟨cleanB_escapeTitle_colon title, cleanB_escapeTitle_quote title, ?_⟩
  have key : dtClause fp (escapeTitle title) =
      ("drawtext=fontfile=".toList ++ fp) ++ ':' ::
        (("text='".toList ++ escapeTitle title ++ ['\'']) ++ ':' ::
          ("fontcolor=white".toList ++ ':' ::
            ("fontsize=52".toList ++ ':' ::
              ("x=(w-text_w)/2".toList ++ ':' ::
                ("y=130".toList ++ ':' ::
                  ("shadowx=2".toList ++ ':' :: "shadowy=2".toList)))))) := by
    simp only [dtClause, List.append_assoc, List.cons_append, List.nil_append]
    rfl
  have hfield1 : cleanB ':' ("drawtext=fontfile=".toList ++ fp) = true :=
    cleanB_append ':' _ _ (by decide) hfp
  have hfield2 :
      cleanB ':' ("text='".toList ++ escapeTitle title ++ ['\'']) = true :=
    cleanB_append ':' _ _
      (cleanB_append ':' _ _ (by decide) (cleanB_escapeTitle_colon title))
      (by decide)
  rw [key]
  rw [splitUnesc_sep_cons ':' (by decide) _ _ hfield1]
  rw [splitUnesc_sep_cons ':' (by decide) _ _ hfield2]
  rw [splitUnesc_sep_cons ':' (by decide) _ _ (by decide)]
  rw [splitUnesc_sep_cons ':' (by decide) _ _ (by decide)]
  rw [splitUnesc_sep_cons ':' (by decide) _ _ (by decide)]
  rw [splitUnesc_sep_cons ':' (by decide) _ _ (by decide)]
  rw [splitUnesc_sep_cons ':' (by decide) _ _ (by decide)]
  rw [splitUnesc_clean ':' _ (by decide)]

/-- C6 witness: the escaping contract at the concrete title "a:b\c'd"
(which contains all three reserved characters) and the font path
"/srv/f.ttf". -/
theorem c6_title_escaping_witness :
    cleanB ':' (escapeTitle "a:b\\c'd".toList) = true ∧
    cleanB '\'' (escapeTitle "a:b\\c'd".toList) = true ∧
    splitUnesc ':' (dtClause "/srv/f.ttf".toList
        (escapeTitle "a:b\\c'd".toList)) =
      ["drawtext=fontfile=".toList ++ "/srv/f.ttf".toList,
       "text='".toList ++ escapeTitle "a:b\\c'd".toList ++ ['\''],
       "fontcolor=white".toList, "fontsize=52".toList,
       "x=(w-text_w)/2".toList, "y=130".toList,
       "shadowx=2".toList, "shadowy=2".toList] :=
  c6_title_escaping "a:b\\c'd".toList "/srv/f.ttf".toList (by decide)
    (by decide)

/-- C1 counterexample: at a concrete render invocation (background absent,
font present, drawtext supported, subtitle file "captions.srt"), the
assembled filter graph contains neither the subtitle path nor any
`subtitles` filter — the claimed caption burn-in stage does not exist. -/
theorem c1_counterexample :
    ¬ hasCaptionStage
        (renderVideo "/srv" (fun _ => true) true
          ⟨none, "voice.mp3", "captions.srt", "Hi", JVal.absent⟩)
        "captions.srt" := by
  rw [hasCaptionStage]
  decide

/-- C1 (amended): the render plan is entirely independent of the subtitle
path (captions are persisted as a separate artifact, not composited), and —
for titles and font paths free of commas — the filter graph splits at
unescaped commas into exactly the scale/setsar/format chain plus, at most,
the drawbox and drawtext title clauses; no clause is a `subtitles` stage. -/
theorem c1_no_caption_stage (dir : String) (env : String → Bool) (d : Bool)
    (args : RenderArgs)
    (htitle : ∀ c ∈ args.title.toList, c ≠ ',')
    (hfont : ∀ f, getFontFile dir env = some f → ∀ c ∈ f.toList, c ≠ ',') :
    (∀ s, renderVideo dir env d (withSrt args s) = renderVideo dir env d args) ∧
    (∀ clause ∈ splitUnesc ',' (renderVideo dir env d args).filter,
      strPrefixB "subtitles".toList clause = false) := by
  refine ⟨fun s => rfl, ?_⟩
  have hbase : ∀ clause ∈ splitUnesc ',' (baseFilter ++ "[v]".toList),
      strPrefixB "subtitles".toList clause = false := by
    intro clause hc
    have hsplit : splitUnesc ',' (baseFilter ++ "[v]".toList) =
        ["[0:v]scale=1080:1920".toList, "setsar=1".toList,
         "format=yuv420p[v]".toList] := by decide
    rw [hsplit] at hc
    simp only [List.mem_cons, List.not_mem_nil, or_false] at hc
    rcases hc with h | h | h <;> subst h <;> decide
  rcases hf : getFontFile dir env with _ | f
  · rw [renderVideo_filter_no_font dir env d args hf]
    exact hbase
  · cases d with
    | false =>
      rw [renderVideo_filter_no_draw dir env args f hf]
      exact hbase
    | true =>
      rw [renderVideo_filter_overlay dir env args f hf]
      have htr : ∀ c ∈
          (if args.title = "" then "RedditToReels" else args.title).toList,
          c ≠ ',' := by
        by_cases h : args.title = ""
        · rw [if_pos h]; decide
        · rw [if_neg h]; exact htitle
      have hts : cleanB ','
          (escapeTitle
            (if args.title = "" then "RedditToReels" else args.title).toList) =
          true :=
        cleanB_escapeTitle_comma _ htr
      have hfpc : cleanB ',' (fontPosixOf f.toList) = true :=
        cleanB_fontPosix_comma _ (hfont f hf)
      have key : baseFilter ++
          overlayStr (fontPosixOf f.toList)
            (escapeTitle
              (if args.title = "" then "RedditToReels" else args.title).toList) ++
          "[v]".toList =
          "[0:v]scale=1080:1920".toList ++ ',' ::
            ("setsar=1".toList ++ ',' ::
              ("format=yuv420p".toList ++ ',' ::
                ("drawbox=x=80:y=100:w=920:h=160:color=black@0.4:t=filled".toList
                  ++ ',' ::
                  (dtClause (fontPosixOf f.toList)
                      (escapeTitle
                        (if args.title = "" then "RedditToReels"
                         else args.title).toList) ++
                    "[v]".toList)))) := by
        simp only [overlayStr, baseFilter, List.append_assoc, List.cons_append,
          List.nil_append]
        rfl
      rw [key]
      have hdt1 : cleanB ','
          ("drawtext=fontfile=".toList ++ fontPosixOf f.toList) = true :=
        cleanB_append ',' _ _ (by decide) hfpc
      have hdt2 : cleanB ','
          ("drawtext=fontfile=".toList ++ fontPosixOf f.toList ++
            ":text='".toList) = true :=
        cleanB_append ',' _ _ hdt1 (by decide)
      have hdt3 : cleanB ','
          ("drawtext=fontfile=".toList ++ fontPosixOf f.toList ++
            ":text='".toList ++
            (escapeTitle
              (if args.title = "" then "RedditToReels"
               else args.title).toList)) = true :=
        cleanB_append ',' _ _ hdt2 hts
      have hdt4 : cleanB ','
          (dtClause (fontPosixOf f.toList)
            (escapeTitle
              (if args.title = "" then "RedditToReels"
               else args.title).toList)) = true :=
        cleanB_append ',' _ _ hdt3 (by decide)
      have hdt : cleanB ','
          (dtClause (fontPosixOf f.toList)
            (escapeTitle
              (if args.title = "" then "RedditToReels" else args.title).toList) ++
            "[v]".toList) = true :=
        cleanB_append ',' _ _ hdt4 (by decide)
      rw [splitUnesc_sep_cons ',' (by decide) _ _ (by decide)]
      rw [splitUnesc_sep_cons ',' (by decide) _ _ (by decide)]
      rw [splitUnesc_sep_cons ',' (by decide) _ _ (by decide)]
      rw [splitUnesc_sep_cons ',' (by decide) _ _ (by decide)]
      rw [splitUnesc_clean ',' _ hdt]
      intro clause hc
      simp only [List.mem_cons, List.not_mem_nil, or_false] at hc
      rcases hc with h | h | h | h | h <;> subst h
      · decide
      · decide
      · decide
      · decide
      · have hshape : dtClause (fontPosixOf f.toList)
            (escapeTitle
              (if args.title = "" then "RedditToReels" else args.title).toList) ++
            "[v]".toList =
            "drawtext=fontfile=".toList ++
              (fontPosixOf f.toList ++
                (":text='".toList ++
                  (escapeTitle
                      (if args.title = "" then "RedditToReels"
                       else args.title).toList ++
                    ("':fontcolor=white:fontsize=52:x=(w-text_w)/2:y=130:shadowx=2:shadowy=2".toList
                      ++ "[v]".toList)))) := by
          simp [dtClause, List.append_assoc]
        rw [hshape]
        exact strPrefixB_append_false _ _ _ (by decide) (by decide)

/-- C1 witness: the plan's independence of the subtitle path at a concrete
invocation with a present font. -/
theorem c1_no_caption_stage_witness :
    renderVideo "/srv" (fun _ => true) true
        ⟨none, "voice.mp3", "other.srt", "Hi", JVal.absent⟩ =
      renderVideo "/srv" (fun _ => true) true
        ⟨none, "voice.mp3", "captions.srt", "Hi", JVal.absent⟩ :=
  (c1_no_caption_stage "/srv" (fun _ => true) true
      ⟨none, "voice.mp3", "captions.srt", "Hi", JVal.absent⟩ (by decide)
      (fun f hfq => by
        have h2 : getFontFile "/srv" (fun _ => true) =
            some "/srv/assets/fonts/Inter-Regular.ttf" := rfl
        rw [h2] at hfq
        injection hfq with h3
        subst h3
        decide)).1 "other.srt"

/-- C10 witness: the amended "-t" rule evaluated at the numeric duration 5. -/
theorem c10_duration_option_witness :
    outputOptions (maxDurationSecOf (JVal.num 5)) =
      baseOutputOpts ++
        (if truthy (JVal.num 5) = true ∧ toNumber (JVal.num 5) ≠ none ∧
            toNumber (JVal.num 5) ≠ some 0
         then ["-t", jsToString (maxDurationSecOf (JVal.num 5))] else []) ∧
    "-t" ∉ baseOutputOpts :=
  c10_duration_option (JVal.num 5)
